import Mathlib

/-!
Shallow embedding of the `gitchs/wsh` WebSocket shell client and its companion
file-copy tool, together with proofs about the session protocol, the
file-transfer encoder, and the connection helpers.

Conventions:
- Go strings and byte slices are embedded as `List Nat` (byte values).
- Straight-line Go control flow is embedded as trace-producing functions over
  small event types; machine integers fit in `Nat`/`Int` (no overflow occurs in
  the modelled code paths).
- The gzip compressor from the Go standard library is external to the
  repository; it is treated as an abstract lossless compressor (a function
  parameter with an explicit inversion hypothesis), while the base64 standard
  encoding is embedded in full.
-/

namespace Wsh

/-- Byte values of a (pure-ASCII) Go string literal. -/
def strBytes (s : String) : List Nat := s.toList.map Char.toNat

/-- The three wire message shapes (wshutils/connection.go:30-44):
`CmdMsg`, `ResizeMsg`, `HeartbeatMsg`. -/
inductive Msg
  | cmd (cmd : List Nat)
  | resize (rows cols : Int)
  | heartbeat (data : List Nat)
deriving DecidableEq

/-! ## IsURL (wshutils/connection.go:86-88)

Go source: `return len(s) > 6 && (s[:6] == "ws://" || s[:7] == "wss://")`.
Slicing `s[:6]` on a string of length > 6 yields the 6-byte preamble, and
`s[:7]` the 7-byte preamble; both are compared against shorter literals.
`List.take` is exact here because the length guard makes both slices in
range (short-circuit evaluation protects the slices in Go as well). -/

/-- Byte values of the literal `"ws://"` (length 5). -/
def wsLit : List Nat := strBytes "ws://"

/-- Byte values of the literal `"wss://"` (length 6). -/
def wssLit : List Nat := strBytes "wss://"

/-- Embedding of `IsURL` (wshutils/connection.go:86-88); `isURL` in
src/unnamed/part_001:233-235 is byte-for-byte identical. -/
def IsURL (s : List Nat) : Bool :=
  decide (6 < s.length) && (decide (s.take 6 = wsLit) || decide (s.take 7 = wssLit))

/-- How runWSH (wsh/main.go:85-106) treats the positional argument. -/
inductive TargetSource
  | endpointLookup
  | direct
deriving DecidableEq

/-- Embedding of the endpoint-vs-URL dispatch in runWSH (wsh/main.go:85-106):
`if !wshutils.IsURL(arg)` resolves the argument against the config, the
`else` branch takes it as a direct URL. -/
def resolveTarget (arg : List Nat) : TargetSource :=
  if IsURL arg then TargetSource.direct else TargetSource.endpointLookup

/-! ## Connection send path (wshutils/connection.go:46-49, 116-122)

The `Connection` struct holds a single field, the socket; it has no mutex.
`SendJSON` marshals the message and immediately calls the websocket
library's `WriteMessage` — it acquires no lock around the write. The step
type below has lock actions precisely so this absence is expressible. -/

/-- Primitive actions available to the send path. -/
inductive SendStep
  | marshal (m : Msg)
  | lockAcquire
  | lockRelease
  | writeMessage (m : Msg)
deriving DecidableEq

/-- Embedding of `Connection.SendJSON` (wshutils/connection.go:116-122):
`json.Marshal(v)` followed directly by `conn.WriteMessage(TextMessage, data)`.
No other statement occurs in the body. -/
def sendJSONSteps (m : Msg) : List SendStep :=
  [SendStep.marshal m, SendStep.writeMessage m]

/-- The send path serializes concurrent writers only if it brackets the write
in a lock acquisition. -/
def sendPathEnforcesMutex (m : Msg) : Prop :=
  SendStep.lockAcquire ∈ sendJSONSteps m

/-! ## Input pump (wsh/main.go:234-253)

Each loop iteration reads up to 1024 bytes from stdin; the read block is
compared (as a whole) against the reserved 5-byte F12 escape sequence. -/

/-- The reserved force-quit escape sequence of wsh/main.go:244 —
`[]byte{27, 91, 50, 52, 126}` (F12). -/
def forceQuitSeq : List Nat := [27, 91, 50, 52, 126]

/-- Session states relevant to one input-loop iteration. -/
inductive SessionState
  | active
  | closing
deriving DecidableEq

/-- Observable events of the interactive session embedding. -/
inductive Ev
  | connectAttempt
  | printConnectError
  | makeRaw
  | termRestore
  | termReset
  | connClose
  | loopExit
  | procExit (code : Nat)
  | send (m : Msg)
deriving DecidableEq

/-- Events of one iteration of the stdin loop (wsh/main.go:234-253) on a
successful read returning the bytes `input`: an exact match of the reserved
sequence closes the connection and leaves the loop; anything else is wrapped
verbatim in one `Cmd` message. -/
def inputStepEvents (input : List Nat) : List Ev :=
  if input = forceQuitSeq then [Ev.connClose, Ev.loopExit]
  else [Ev.send (Msg.cmd input)]

/-- Session state after one input-loop iteration that started in `Active`. -/
def inputStepState (input : List Nat) : SessionState :=
  if input = forceQuitSeq then SessionState.closing else SessionState.active

/-! ## Chunked sending (wcp/main.go:208-236; identical in src/unnamed/part_000:256-278)

`sendEncodedData` computes `totalChunks = (len(data) + chunkSize - 1) / chunkSize`
and, for `i` in `[0, totalChunks)`, sends `data[i*256 : min((i+1)*256, len)]`
with an appended `"\n"` as one `Cmd`. `(l.drop start).take chunkSize` is exactly
the Go slice `data[start:end]` because `take` clamps at the end of the list the
same way the `if end > len(data)` guard clamps `end`. -/

/-- Chunk width of the transfer; wcp/main.go:18. -/
def chunkSize : Nat := 256

/-- Number of chunk messages for a blob of length `L`; wcp/main.go:211. -/
def totalChunks (L : Nat) : Nat := (L + chunkSize - 1) / chunkSize

/-- The `i`-th chunk, i.e. the Go slice `data[i*256 : min((i+1)*256, len)]`
(wcp/main.go:216-222). -/
def chunkAt (data : List Nat) (i : Nat) : List Nat :=
  (data.drop (i * chunkSize)).take chunkSize

/-- The chunks of `data` in send order. -/
def chunksOf (data : List Nat) : List (List Nat) :=
  (List.range (totalChunks data.length)).map (chunkAt data)

/-- Embedding of `sendEncodedData` (wcp/main.go:209-236): each chunk is sent
as one `Cmd` whose payload is the chunk followed by `"\n"` (byte 10). -/
def sendEncodedData (data : List Nat) : List Msg :=
  (List.range (totalChunks data.length)).map
    (fun i => Msg.cmd (chunkAt data i ++ [10]))

/-! ## File encoding (wcp/main.go:165-206; identical in src/unnamed/part_000:213-254)

`encodeFile` gzip-compresses the file contents and then applies
`base64.StdEncoding` (RFC 4648 standard alphabet with `=` padding) to the
compressed bytes. The base64 step is embedded in full below; gzip is the Go
standard library (external to this repository) and is abstracted as a
lossless compressor passed as a parameter. -/

/-- The RFC 4648 standard-alphabet character (as a byte) for a 6-bit value:
`A`-`Z`, `a`-`z`, `0`-`9`, `+`, `/`. -/
def b64char (n : Nat) : Nat :=
  if n < 26 then 65 + n
  else if n < 52 then 97 + (n - 26)
  else if n < 62 then 48 + (n - 52)
  else if n = 62 then 43
  else 47

/-- The 6-bit value of a standard-alphabet byte, `none` for any byte outside
the alphabet (including the pad byte `=` = 61). -/
def b64val (c : Nat) : Option Nat :=
  if 65 ≤ c ∧ c ≤ 90 then some (c - 65)
  else if 97 ≤ c ∧ c ≤ 122 then some (26 + (c - 97))
  else if 48 ≤ c ∧ c ≤ 57 then some (52 + (c - 48))
  else if c = 43 then some 62
  else if c = 47 then some 63
  else none

/-- The pad byte `=`. -/
def padByte : Nat := 61

/-- Base64 standard encoding with padding of a byte list, three input bytes
per four output bytes; a final group of one byte yields two characters and
`==`, of two bytes three characters and `=`. -/
def encodeB64 : List Nat → List Nat
  | [] => []
  | [a] => [b64char (a / 4), b64char (a % 4 * 16), padByte, padByte]
  | [a, b] => [b64char (a / 4), b64char (a % 4 * 16 + b / 16), b64char (b % 16 * 4), padByte]
  | a :: b :: c :: rest =>
      b64char (a / 4) :: b64char (a % 4 * 16 + b / 16) ::
        b64char (b % 16 * 4 + c / 64) :: b64char (c % 64) :: encodeB64 rest

/-- Base64 standard decoding: four characters per quantum, padding allowed
only in the final quantum, `none` on any malformed input. This is the
reverse text decoding of the transfer pipeline. -/
def decodeB64 : List Nat → Option (List Nat)
  | [] => some []
  | c1 :: c2 :: c3 :: c4 :: rest =>
      (b64val c1).bind fun a =>
        (b64val c2).bind fun b =>
          if c3 = padByte ∧ c4 = padByte ∧ rest = [] then
            some [a * 4 + b / 16]
          else
            (b64val c3).bind fun c =>
              if c4 = padByte ∧ rest = [] then
                some [a * 4 + b / 16, b % 16 * 16 + c / 4]
              else
                (b64val c4).bind fun d =>
                  (decodeB64 rest).bind fun r =>
                    some ((a * 4 + b / 16) :: (b % 16 * 16 + c / 4) :: (c % 4 * 64 + d) :: r)
  | _ => none

/-- The encode side of `encodeFile` (wcp/main.go:166-206): compress, then
base64-encode the compressed bytes. `compress` stands for the Go standard
library's gzip writer. -/
def encodeFile (compress : List Nat → List Nat) (F : List Nat) : List Nat :=
  encodeB64 (compress F)

/-- The inverse pipeline named by the spec: base64-decode the text blob, then
decompress. `decompress` stands for gunzip. -/
def decodePipeline (decompress : List Nat → Option (List Nat)) (blob : List Nat) :
    Option (List Nat) :=
  (decodeB64 blob).bind decompress

/-! ## runWSH startup and exit paths (wsh/main.go:108-253)

Startup order: `NewConnection` (dial, line 109; on error print and
`os.Exit(1)`, lines 110-113) strictly precedes `term.MakeRaw` (line 123);
after raw mode the deferred cleanup is registered (restore + terminal reset,
lines 128-137, after the `conn.Close` defer of line 114), the pumps start,
and the baseline `Resize` and `TERM` `Cmd` are sent (lines 224-229). -/

/-- runWSH from the dial through the baseline sends, abstracted over the
dial outcome and the terminal geometry reported by `term.GetSize`. -/
def runWSHTrace (dialOk : Bool) (rows cols : Int) : List Ev :=
  Ev.connectAttempt ::
    (if dialOk then
      [Ev.makeRaw, Ev.send (Msg.resize rows cols),
       Ev.send (Msg.cmd (strBytes "export TERM=xterm-256color\n"))]
    else
      [Ev.printConnectError, Ev.procExit 1])

/-- The deferred cleanup registered by runWSH once raw mode is entered, in
execution order: the raw-mode restore closure (wsh/main.go:128-137, which
restores the prior mode and emits the reset sequence) runs before the
`conn.Close` defer (line 114). Go runs deferred calls on function return and
skips them entirely on `os.Exit`. -/
def runWSHDefers : List Ev := [Ev.termRestore, Ev.termReset, Ev.connClose]

/-- The three exit paths of an interactive session that reached the Active
state. -/
inductive ExitPath
  | inputReadError
  | remoteClosed
  | forceQuit
deriving DecidableEq

/-- Events on each exit path of runWSH after the session is Active:
- `inputReadError` (wsh/main.go:237-240): `return` from runWSH, so the
  deferred cleanup runs, then the process exits 0;
- `forceQuit` (wsh/main.go:244-249): explicit `conn.Close()`, `break`, then
  the same return path;
- `remoteClosed` (wsh/main.go:212-221): the output pump calls `os.Exit(0)`,
  which terminates the process without running any deferred call. -/
def exitTrace : ExitPath → List Ev
  | ExitPath.inputReadError => runWSHDefers ++ [Ev.procExit 0]
  | ExitPath.forceQuit => Ev.connClose :: (runWSHDefers ++ [Ev.procExit 0])
  | ExitPath.remoteClosed => [Ev.procExit 0]

/-- The prior terminal mode is restored on an exit path iff the path's trace
contains the restore event. -/
def restoresTerminal (p : ExitPath) : Prop := Ev.termRestore ∈ exitTrace p

/-! ## Idle heartbeat (wsh/main.go:139-149, 192-209)

Discrete model of the heartbeat goroutine: the ticker fires once per second;
`os t` says whether some other logical sender (input pump, resize watcher,
signal handler) performed a send at tick `t`, serialized before that tick's
heartbeat check by the `lastSendMutex`. The clock starts at 0 because the
baseline `Resize`/`TERM` sends update it before the loop (lines 224-229).
`hbAt` is the check `timeSinceLastSend > heartbeatInterval` of line 203 and
`lastSendAfter` is the `lastSendTime` cell after tick `t` (heartbeats update
it at line 206, like every other sender). -/

/-- The liveness clock after tick `t` for interval `h`. -/
def lastSendAfter (h : Nat) (os : Nat → Bool) : Nat → Nat
  | 0 => 0
  | t + 1 =>
    if h < t + 1 - (if os (t + 1) then t + 1 else lastSendAfter h os t) then t + 1
    else if os (t + 1) then t + 1 else lastSendAfter h os t

/-- Whether the heartbeat goroutine emits a `Heartbeat` at tick `t`. -/
def hbAt (h : Nat) (os : Nat → Bool) : Nat → Bool
  | 0 => false
  | t + 1 => decide (h < t + 1 - (if os (t + 1) then t + 1 else lastSendAfter h os t))

/-! ## wcp size gate (src/unnamed/part_000:18-25, 96-151) -/

/-- The 32 KiB transfer limit (src/unnamed/part_000:24). -/
def maxFileSize : Nat := 32 * 1024

/-- Observable events of wcp's main. -/
inductive WcpEv
  | sizeError
  | sizeWarning
  | connect
  | remoteTTYSetup
  | transferRun
  | fatal (code : Nat)
deriving DecidableEq

/-- wcp's main from the completed `os.Stat` through the transfer
(src/unnamed/part_000:101-151): `fileSize > maxFileSize && !*force` prints
the size error and exits 1; otherwise a warning is printed when the size
exceeds the limit, and main proceeds to dial, remote tty setup and the
transfer. -/
def wcpMain (fileSize : Nat) (force : Bool) : List WcpEv :=
  if maxFileSize < fileSize ∧ force = false then [WcpEv.sizeError, WcpEv.fatal 1]
  else
    (if maxFileSize < fileSize then [WcpEv.sizeWarning] else []) ++
      [WcpEv.connect, WcpEv.remoteTTYSetup, WcpEv.transferRun]

/-- The second line of the size error (src/unnamed/part_000:106), which
instructs the user to use the override flag. -/
def sizeErrorText : List Nat :=
  strBytes "Use --force flag to transfer files larger than 32KB."

/-! ## transferFile (wcp/main.go:130-163; src/unnamed/part_000:168-211)

`filepath.Base` on Unix: an empty path yields `"."`; otherwise trailing
slashes are stripped, everything up to the final slash is dropped, and a
path of only slashes yields `"/"`. Embedded below by reversing: dropping
leading 47s of the reversed path strips the trailing slashes, and taking
until the next 47 keeps exactly the final component. -/

/-- Embedding of `filepath.Base` on byte lists (slash = 47). -/
def filepathBase (path : List Nat) : List Nat :=
  if path = [] then strBytes "."
  else if ((path.reverse.dropWhile (fun x => x == 47)).takeWhile (fun x => x != 47)).reverse = []
    then [47]
  else ((path.reverse.dropWhile (fun x => x == 47)).takeWhile (fun x => x != 47)).reverse

/-- The fixed part of the handshake command template (wcp/main.go:135). -/
def heredocLine : List Nat := strBytes "cat <<'__EOF' |base64 --decode |gunzip > "

/-- The heredoc terminator (wcp/main.go:20). -/
def endMarker : List Nat := strBytes "__EOF"

/-- The handshake `Cmd` payload:
`fmt.Sprintf("cat <<'__EOF' |base64 --decode |gunzip > %s\n", filepath.Base(localFile))`. -/
def handshakeCmd (localFile : List Nat) : List Nat :=
  heredocLine ++ filepathBase localFile ++ [10]

/-- The `Cmd` sequence sent by `transferFile` in wcp/main.go:131-163 for a
source path and its already-encoded blob: the handshake, the chunks, the
terminator line. -/
def transferFileMsgs (localFile encoded : List Nat) : List Msg :=
  Msg.cmd (handshakeCmd localFile) ::
    (sendEncodedData encoded ++ [Msg.cmd (endMarker ++ [10])])

/-- The cleanup commands of src/unnamed/part_000:195-198. -/
def postCommands : List (List Nat) := [strBytes "reset", strBytes "echo 'it works'"]

/-- The `Cmd` sequence sent by `transferFile` in src/unnamed/part_000:169-211:
as in wcp/main.go, then each cleanup command with `"\n"` appended
(lines 200-204). -/
def transferFileMsgsFull (localFile encoded : List Nat) : List Msg :=
  Msg.cmd (handshakeCmd localFile) ::
    (sendEncodedData encoded ++ [Msg.cmd (endMarker ++ [10])] ++
      postCommands.map (fun c => Msg.cmd (c ++ [10])))

/-! # Theorems -/

/-- Concatenating the chunks in order reproduces the data, for any chunk count
`n` large enough to cover the whole list. -/
theorem flatten_range_chunkAt (n : Nat) :
    ∀ data : List Nat, data.length ≤ n * chunkSize →
      ((List.range n).map (chunkAt data)).flatten = data := by
  induction n with
  | zero =>
    intro data h
    simp only [Nat.zero_mul, Nat.le_zero, List.length_eq_zero] at h
    subst h
    rfl
  | succ n ih =>
    intro data h
    rw [List.range_succ_eq_map, List.map_cons, List.map_map, List.flatten_cons]
    have hshift :
        (List.map (chunkAt data ∘ (· + 1)) (List.range n)) =
          (List.range n).map (chunkAt (data.drop chunkSize)) := by
      apply List.map_congr_left
      intro i _
      show chunkAt data (i + 1) = chunkAt (data.drop chunkSize) i
      unfold chunkAt
      rw [List.drop_drop]
      have hidx : chunkSize + i * chunkSize = (i + 1) * chunkSize := by
        simp only [chunkSize]
        omega
      rw [hidx]
    have hrest : (data.drop chunkSize).length ≤ n * chunkSize := by
      simp only [List.length_drop, chunkSize] at h ⊢
      omega
    rw [hshift, ih (data.drop chunkSize) hrest]
    show (data.drop (0 * chunkSize)).take chunkSize ++ data.drop chunkSize = data
    rw [Nat.zero_mul, List.drop_zero, List.take_append_drop]

/-- Decoding inverts the alphabet map on every 6-bit value. -/
theorem b64val_b64char_fin : ∀ n : Fin 64, b64val (b64char n.val) = some n.val := by decide

/-- Decoding inverts the alphabet map, `Nat` form. -/
theorem b64val_b64char (n : Nat) (h : n < 64) : b64val (b64char n) = some n :=
  b64val_b64char_fin ⟨n, h⟩

/-- No alphabet character is the pad byte. -/
theorem b64char_ne_pad (n : Nat) : b64char n ≠ padByte := by
  unfold b64char padByte
  split_ifs <;> omega

/-- Base64 round trip: decoding the standard encoding of any byte list
returns exactly that list. -/
theorem decodeB64_encodeB64 (l : List Nat) (hl : ∀ x ∈ l, x < 256) :
    decodeB64 (encodeB64 l) = some l := by
  induction l using encodeB64.induct with
  | case1 => rfl
  | case2 a =>
    have ha : a < 256 := hl a (by simp)
    rw [encodeB64, decodeB64, b64val_b64char (a / 4) (by omega),
      b64val_b64char (a % 4 * 16) (by omega)]
    simp only [Option.some_bind, and_self, if_pos, if_true]
    have : a / 4 * 4 + a % 4 * 16 / 16 = a := by omega
    rw [this]
  | case3 a b =>
    have ha : a < 256 := hl a (by simp)
    have hb : b < 256 := hl b (by simp)
    rw [encodeB64, decodeB64, b64val_b64char (a / 4) (by omega),
      b64val_b64char (a % 4 * 16 + b / 16) (by omega),
      b64val_b64char (b % 16 * 4) (by omega)]
    simp only [Option.some_bind]
    rw [if_neg (fun hcon => b64char_ne_pad (b % 16 * 4) hcon.1)]
    rw [if_pos (by simp)]
    have h1 : a / 4 * 4 + (a % 4 * 16 + b / 16) / 16 = a := by omega
    have h2 : (a % 4 * 16 + b / 16) % 16 * 16 + b % 16 * 4 / 4 = b := by omega
    rw [h1, h2]
  | case4 a b c rest ih =>
    have ha : a < 256 := hl a (by simp)
    have hb : b < 256 := hl b (by simp)
    have hc : c < 256 := hl c (by simp)
    have hrest : ∀ x ∈ rest, x < 256 := fun x hx => hl x (by simp [hx])
    rw [encodeB64, decodeB64, b64val_b64char (a / 4) (by omega),
      b64val_b64char (a % 4 * 16 + b / 16) (by omega),
      b64val_b64char (b % 16 * 4 + c / 64) (by omega),
      b64val_b64char (c % 64) (by omega)]
    simp only [Option.some_bind]
    rw [if_neg (fun hcon => b64char_ne_pad (b % 16 * 4 + c / 64) hcon.1)]
    rw [if_neg (fun hcon => b64char_ne_pad (c % 64) hcon.1)]
    rw [ih hrest]
    simp only [Option.some_bind]
    have h1 : a / 4 * 4 + (a % 4 * 16 + b / 16) / 16 = a := by omega
    have h2 : (a % 4 * 16 + b / 16) % 16 * 16 + (b % 16 * 4 + c / 64) / 4 = b := by omega
    have h3 : (b % 16 * 4 + c / 64) % 4 * 64 + c % 64 = c := by omega
    rw [h1, h2, h3]

/-- Claim C10: for every input string `s`, `IsURL s` is `false` — the guard
compares the length-6 slice `s[:6]` with the 5-byte literal `"ws://"` and the
length-7 slice `s[:7]` with the 6-byte literal `"wss://"`, equalities between
lists of different lengths — so the positional argument is always resolved as
an endpoint name against the config, never treated as a direct URL. -/
theorem c10_isurl_always_false (s : List Nat) :
    IsURL s = false ∧ resolveTarget s = TargetSource.endpointLookup := by
  have hwsl : wsLit.length = 5 := by decide
  have hwssl : wssLit.length = 6 := by decide
  have hurl : IsURL s = false := by
    unfold IsURL
    by_cases h : 6 < s.length
    · have h1 : ¬ s.take 6 = wsLit := by
        intro he
        have hl := congrArg List.length he
        rw [List.length_take, hwsl] at hl
        omega
      have h2 : ¬ s.take 7 = wssLit := by
        intro he
        have hl := congrArg List.length he
        rw [List.length_take, hwssl] at hl
        omega
      simp [h1, h2]
    · simp [h]
  refine ⟨hurl, ?_⟩
  unfold resolveTarget
  rw [hurl]
  simp

/-- Claim C1: the Connection's send path is supposed to enforce mutual
exclusion per frame; in the code `SendJSON` performs a bare
marshal-then-WriteMessage with no lock acquisition or release anywhere in
the path (and the `Connection` struct carries no mutex), so no mutual
exclusion is enforced for any message. -/
theorem c1_send_path_has_no_lock (m : Msg) :
    ¬ sendPathEnforcesMutex m ∧
    SendStep.lockAcquire ∉ sendJSONSteps m ∧
    SendStep.lockRelease ∉ sendJSONSteps m := by
  refine ⟨?_, ?_, ?_⟩ <;> simp [sendPathEnforcesMutex, sendJSONSteps]

/-- Claim C8: a read block exactly equal to the reserved 5-byte sequence
moves the session from `Active` directly to `Closing` (close connection,
leave the loop) with no `Cmd` sent for that read; every other nonempty read
block produces exactly one `Cmd` carrying the read bytes verbatim. -/
theorem c8_force_quit_and_forwarding (input : List Nat) :
    (input = forceQuitSeq →
      inputStepEvents input = [Ev.connClose, Ev.loopExit] ∧
      inputStepState input = SessionState.closing ∧
      ∀ b, Ev.send (Msg.cmd b) ∉ inputStepEvents input) ∧
    (input ≠ forceQuitSeq → 0 < input.length →
      inputStepEvents input = [Ev.send (Msg.cmd input)] ∧
      inputStepState input = SessionState.active) := by
  constructor
  · intro h
    subst h
    refine ⟨rfl, rfl, ?_⟩
    intro b
    simp [inputStepEvents, forceQuitSeq]
  · intro h _
    constructor
    · simp [inputStepEvents, h]
    · simp [inputStepState, h]

/-- Witness for C8 at concrete inputs: the F12 sequence itself and the
single byte `a`. -/
theorem c8_witness :
    inputStepEvents forceQuitSeq = [Ev.connClose, Ev.loopExit] ∧
    inputStepEvents [97] = [Ev.send (Msg.cmd [97])] :=
  ⟨((c8_force_quit_and_forwarding forceQuitSeq).1 rfl).1,
   ((c8_force_quit_and_forwarding [97]).2 (by decide) (by decide)).1⟩

/-- Claim C3: for an encoded blob of length `L > 0`, `sendEncodedData` sends
exactly `ceil(L/256)` chunk messages in order, each the next chunk with a
line break appended; every chunk has length 256 except the last, whose length
is `L mod 256` (or 256 when `L` is a nonzero multiple of 256); concatenating
the chunks in send order reproduces the blob byte-exactly. -/
theorem c3_chunking (data : List Nat) (h : 0 < data.length) :
    (sendEncodedData data).length = (data.length + 255) / 256 ∧
    sendEncodedData data = (chunksOf data).map (fun ch => Msg.cmd (ch ++ [10])) ∧
    (∀ i, i + 1 < totalChunks data.length → (chunkAt data i).length = 256) ∧
    (chunkAt data (totalChunks data.length - 1)).length =
      (if data.length % 256 = 0 then 256 else data.length % 256) ∧
    (chunksOf data).flatten = data := by
  refine ⟨?_, ?_, ?_, ?_, ?_⟩
  · simp [sendEncodedData, totalChunks, chunkSize]
  · simp [sendEncodedData, chunksOf, List.map_map]
  · intro i hi
    have ht : totalChunks data.length = (data.length + 255) / 256 := rfl
    simp only [chunkAt, List.length_take, List.length_drop, chunkSize]
    omega
  · have ht : totalChunks data.length = (data.length + 255) / 256 := rfl
    simp only [chunkAt, List.length_take, List.length_drop, chunkSize]
    by_cases hm : data.length % 256 = 0
    · rw [if_pos hm]
      omega
    · rw [if_neg hm]
      omega
  · exact flatten_range_chunkAt (totalChunks data.length) data
      (by simp only [totalChunks, chunkSize]; omega)

/-- Witness for C3 at the concrete 5-byte blob `[1, 2, 3, 4, 5]`: one chunk of
length 5 is sent and flattening returns the blob. -/
theorem c3_witness :
    0 < ([1, 2, 3, 4, 5] : List Nat).length ∧
    (sendEncodedData [1, 2, 3, 4, 5]).length = 1 ∧
    (chunkAt [1, 2, 3, 4, 5] (totalChunks 5 - 1)).length = 5 ∧
    (chunksOf [1, 2, 3, 4, 5]).flatten = [1, 2, 3, 4, 5] := by
  have h := c3_chunking [1, 2, 3, 4, 5] (by decide)
  exact ⟨by decide, by rw [h.1]; decide, by
    have := h.2.2.2.1
    simpa using this, h.2.2.2.2⟩

/-- Claim C2: for every file contents `F`, the encoder pipeline computed by
`encodeFile` — compression followed by base64 text encoding — composed with
the inverse pipeline — base64 decode followed by decompression — returns
exactly `F`. The compressor stands for the Go standard library's gzip and is
assumed lossless on `F` (and byte-valued), which is its documented contract;
the base64 leg is proved outright. -/
theorem c2_roundtrip (compress : List Nat → List Nat)
    (decompress : List Nat → Option (List Nat)) (F : List Nat)
    (hbytes : ∀ x ∈ compress F, x < 256)
    (hinv : decompress (compress F) = some F) :
    decodePipeline decompress (encodeFile compress F) = some F := by
  unfold decodePipeline encodeFile
  rw [decodeB64_encodeB64 (compress F) hbytes]
  simpa using hinv

/-- Witness for C2 with the identity compressor and the three bytes
`[103, 122, 0]`. -/
theorem c2_witness :
    decodePipeline (fun l => some l) (encodeFile (fun l => l) [103, 122, 0]) =
      some [103, 122, 0] :=
  c2_roundtrip (fun l => l) (fun l => some l) [103, 122, 0] (by decide) rfl

/-- Claim C4: the session is supposed to restore the prior terminal mode on
every exit path; the return paths (input read error, force-quit) do run the
deferred restore, but when the output pump detects the remote close it calls
`os.Exit(0)`, which skips every deferred call, so no restore happens on that
path. -/
theorem c4_restore_skipped_on_remote_close :
    restoresTerminal ExitPath.inputReadError ∧
    restoresTerminal ExitPath.forceQuit ∧
    ¬ restoresTerminal ExitPath.remoteClosed ∧
    exitTrace ExitPath.remoteClosed = [Ev.procExit 0] := by
  refine ⟨?_, ?_, ?_, rfl⟩ <;> unfold restoresTerminal <;> decide

/-- Claim C7: when the dial fails, runWSH prints the connect error and exits 1
having never switched the terminal to raw mode and never sent a frame; on
every execution the dial attempt is the first event, so it strictly precedes
any raw-mode switch. -/
theorem c7_dial_precedes_raw (dialOk : Bool) (rows cols : Int)
    (hfail : dialOk = false) :
    runWSHTrace dialOk rows cols =
      [Ev.connectAttempt, Ev.printConnectError, Ev.procExit 1] ∧
    Ev.makeRaw ∉ runWSHTrace dialOk rows cols ∧
    (∀ m, Ev.send m ∉ runWSHTrace dialOk rows cols) ∧
    (∀ ok pre suf, runWSHTrace ok rows cols = pre ++ Ev.makeRaw :: suf →
      Ev.connectAttempt ∈ pre) := by
  subst hfail
  refine ⟨by simp [runWSHTrace], by simp [runWSHTrace], ?_, ?_⟩
  · intro m
    simp [runWSHTrace]
  · intro ok pre suf heq
    cases pre with
    | nil =>
      exfalso
      rw [List.nil_append] at heq
      cases ok <;> simp [runWSHTrace] at heq
    | cons a pre' =>
      rw [List.cons_append] at heq
      have ha : Ev.connectAttempt = a := by
        cases ok <;>
          (simp only [runWSHTrace, if_true, if_false, Bool.false_eq_true, ite_false,
            ite_true] at heq; exact (List.cons_eq_cons.mp heq).1)
      rw [ha]
      exact List.mem_cons_self a pre'

/-- Witness for C7 at a failed dial with the fallback geometry 47x196. -/
theorem c7_witness :
    runWSHTrace false 47 196 =
      [Ev.connectAttempt, Ev.printConnectError, Ev.procExit 1] :=
  (c7_dial_precedes_raw false 47 196 rfl).1

/-- Claim C6: a source file strictly larger than 32 KiB is rejected fatally
without the force flag — the size-error trace exits 1 before any connect
event, and the error text instructs use of `--force` — while with the force
flag a warning is produced and the run proceeds to connect and transfer. -/
theorem c6_size_gate (fileSize : Nat) (hbig : maxFileSize < fileSize) :
    wcpMain fileSize false = [WcpEv.sizeError, WcpEv.fatal 1] ∧
    WcpEv.connect ∉ wcpMain fileSize false ∧
    (strBytes "--force") <:+: sizeErrorText ∧
    wcpMain fileSize true =
      [WcpEv.sizeWarning, WcpEv.connect, WcpEv.remoteTTYSetup, WcpEv.transferRun] := by
  refine ⟨?_, ?_, ?_, ?_⟩
  · simp [wcpMain, hbig]
  · simp [wcpMain, hbig]
  · exact ⟨strBytes "Use ", strBytes " flag to transfer files larger than 32KB.", by decide⟩
  · simp [wcpMain, hbig]

/-- Witness for C6 at the concrete size 32 KiB + 1 = 32769 bytes. -/
theorem c6_witness :
    wcpMain 32769 false = [WcpEv.sizeError, WcpEv.fatal 1] ∧
    wcpMain 32769 true =
      [WcpEv.sizeWarning, WcpEv.connect, WcpEv.remoteTTYSetup, WcpEv.transferRun] := by
  have h := c6_size_gate 32769 (by decide)
  exact ⟨h.1, h.2.2.2⟩

/-- The liveness clock never runs ahead of the current tick. -/
theorem lastSendAfter_le (h : Nat) (os : Nat → Bool) :
    ∀ t, lastSendAfter h os t ≤ t := by
  intro t
  induction t with
  | zero => exact Nat.le_refl 0
  | succ t ih =>
    simp only [lastSendAfter]
    split_ifs <;> omega

/-- Any tick at which another sender fired is a lower bound for the clock from
then on. -/
theorem lastSendAfter_ge_send (h : Nat) (os : Nat → Bool) :
    ∀ t s, s ≤ t → os s = true → s ≤ lastSendAfter h os t := by
  intro t
  induction t with
  | zero =>
    intro s hs _
    simpa [lastSendAfter] using hs
  | succ t ih =>
    intro s hs hos
    by_cases hst : s = t + 1
    · subst hst
      simp [lastSendAfter, hos]
    · have hs' : s ≤ t := by omega
      have hle := ih s hs' hos
      simp only [lastSendAfter]
      split_ifs <;> omega

/-- While no other sender fires, the clock stays put (up to `h` ticks past a
refresh, no heartbeat fires either). -/
theorem lastSendAfter_idle_stay (h : Nat) (os : Nat → Bool) (t : Nat)
    (hlast : lastSendAfter h os t = t) :
    ∀ d, d ≤ h → (∀ s, t < s → s ≤ t + d → os s = false) →
      lastSendAfter h os (t + d) = t := by
  intro d
  induction d with
  | zero => intro _ _; simpa using hlast
  | succ d ih =>
    intro hd hidle
    have hstay : lastSendAfter h os (t + d) = t :=
      ih (by omega) (fun s h1 h2 => hidle s h1 (by omega))
    have heq : t + (d + 1) = (t + d) + 1 := by omega
    rw [heq]
    have hos : os ((t + d) + 1) = false := hidle _ (by omega) (by omega)
    simp [lastSendAfter, hos, hstay]
    intro hcon
    omega

/-- Claim C5: at a heartbeat-check tick a `Heartbeat` is emitted iff the time
since the last send (including a send arriving at that tick) exceeds the
interval `h`; a send at tick `s` suppresses every heartbeat for the next `h`
ticks; from a refreshed clock, an otherwise idle connection gets no heartbeat
for `h` ticks and exactly then one at tick `t + h + 1`; and every emitted
heartbeat refreshes the liveness clock. -/
theorem c5_heartbeat (h : Nat) (os : Nat → Bool) :
    (∀ t, hbAt h os (t + 1) = true ↔
      h < t + 1 - (if os (t + 1) then t + 1 else lastSendAfter h os t)) ∧
    (∀ s t, s ≤ t → os s = true → t - s ≤ h → hbAt h os t = false) ∧
    (∀ t, lastSendAfter h os t = t →
      (∀ s, t < s → s ≤ t + h + 1 → os s = false) →
      (∀ d, 1 ≤ d → d ≤ h → hbAt h os (t + d) = false) ∧
        hbAt h os (t + h + 1) = true) ∧
    (∀ t, hbAt h os t = true → lastSendAfter h os t = t) := by
  refine ⟨?_, ?_, ?_, ?_⟩
  · intro t
    simp [hbAt]
  · intro s t hst hos hwin
    cases t with
    | zero => rfl
    | succ t =>
      simp only [hbAt, decide_eq_false_iff_not, Nat.not_lt]
      by_cases h1 : os (t + 1)
      · rw [if_pos h1]
        omega
      · rw [if_neg h1]
        have hs' : s ≤ t := by
          rcases Nat.lt_or_ge s (t + 1) with hlt | hge
          · omega
          · exfalso
            have : s = t + 1 := by omega
            rw [this] at hos
            exact h1 hos
        have := lastSendAfter_ge_send h os t s hs' hos
        have := lastSendAfter_le h os t
        omega
  · intro t hlast hidle
    constructor
    · intro d hd1 hdh
      have hstay : lastSendAfter h os (t + (d - 1)) = t :=
        lastSendAfter_idle_stay h os t hlast (d - 1) (by omega)
          (fun s h1 h2 => hidle s h1 (by omega))
      have heq : t + d = (t + (d - 1)) + 1 := by omega
      rw [heq]
      have hos : os ((t + (d - 1)) + 1) = false := hidle _ (by omega) (by omega)
      simp [hbAt, hos, hstay]
      omega
    · have hstay : lastSendAfter h os (t + h) = t :=
        lastSendAfter_idle_stay h os t hlast h (Nat.le_refl h)
          (fun s h1 h2 => hidle s h1 (by omega))
      have heq : t + h + 1 = (t + h) + 1 := rfl
      rw [heq]
      have hos : os ((t + h) + 1) = false := hidle _ (by omega) (by omega)
      simp [hbAt, hos, hstay]
      omega
  · intro t hb
    cases t with
    | zero => exact absurd hb (by simp [hbAt])
    | succ t =>
      simp only [hbAt, decide_eq_true_eq] at hb
      simp only [lastSendAfter]
      rw [if_pos hb]

/-- Witness for C5 with interval 1 and no other senders: no heartbeat at
tick 1, the first heartbeat at tick 2. -/
theorem c5_witness :
    hbAt 1 (fun _ => false) 1 = false ∧ hbAt 1 (fun _ => false) 2 = true := by
  have h := (c5_heartbeat 1 (fun _ => false)).2.2.1 0 rfl (fun s _ _ => rfl)
  exact ⟨h.1 1 (by decide) (by decide), h.2⟩

/-- Stripping of directory components: on a path of the form
`dir ++ "/" ++ name` with a nonempty, slash-free final component, the
embedded `filepath.Base` returns exactly that component. -/
theorem filepathBase_strip (dir name : List Nat) (hn : name ≠ []) (hns : 47 ∉ name) :
    filepathBase (dir ++ 47 :: name) = name := by
  have hne : dir ++ 47 :: name ≠ [] := by simp
  have hrev : (dir ++ 47 :: name).reverse = name.reverse ++ 47 :: dir.reverse := by
    simp [List.reverse_append]
  have hdrop : ((dir ++ 47 :: name).reverse).dropWhile (fun x => x == 47) =
      name.reverse ++ 47 :: dir.reverse := by
    rw [hrev]
    cases hnr : name.reverse with
    | nil =>
      exfalso
      apply hn
      have := congrArg List.reverse hnr
      simpa using this
    | cons y ys =>
      have hy : y ∈ name := by
        have hmem : y ∈ name.reverse := by
          rw [hnr]
          exact List.mem_cons_self y ys
        simpa using hmem
      have hy47 : (y == 47) = false := by
        simp only [beq_eq_false_iff_ne, ne_eq]
        intro hcontra
        exact hns (hcontra ▸ hy)
      rw [List.cons_append]
      simp [List.dropWhile_cons, hy47]
  have htake : (name.reverse ++ 47 :: dir.reverse).takeWhile (fun x => x != 47) =
      name.reverse := by
    have hpos : ∀ a ∈ name.reverse, (a != 47) = true := by
      intro a ha
      have ham : a ∈ name := by simpa using ha
      simp only [bne_iff_ne, ne_eq]
      intro hcontra
      exact hns (hcontra ▸ ham)
    rw [List.takeWhile_append_of_pos hpos,
      List.takeWhile_cons_of_neg (by simp), List.append_nil]
  unfold filepathBase
  rw [if_neg hne, hdrop, htake, List.reverse_reverse, if_neg hn]

/-- Counterexample to claim C9 as stated: on a concrete transfer, the `Cmd`
sequence sent by the transferFile of src/unnamed/part_000 is not exactly
handshake, chunks, terminator — it continues past the terminator. -/
theorem c9_counterexample :
    transferFileMsgsFull (strBytes "a.txt") (strBytes "AAAA") ≠
      Msg.cmd (handshakeCmd (strBytes "a.txt")) ::
        (sendEncodedData (strBytes "AAAA") ++ [Msg.cmd (endMarker ++ [10])]) := by
  decide

/-- Claim C9 (amended): the `Cmd` sequence of a transfer is exactly the
handshake built from the template and the basename of the source path, then
the encoded chunks in order, then the terminator line — with no other `Cmd`
among them — and, in the src/unnamed/part_000 variant, exactly two cleanup
commands (`reset` and a success marker) after the terminator. -/
theorem c9_transfer_sequence (localFile encoded dir name : List Nat) :
    transferFileMsgs localFile encoded =
      Msg.cmd (handshakeCmd localFile) ::
        ((chunksOf encoded).map (fun ch => Msg.cmd (ch ++ [10])) ++
          [Msg.cmd (endMarker ++ [10])]) ∧
    transferFileMsgsFull localFile encoded =
      transferFileMsgs localFile encoded ++
        [Msg.cmd (strBytes "reset" ++ [10]),
         Msg.cmd (strBytes "echo 'it works'" ++ [10])] ∧
    (transferFileMsgs localFile encoded).length = 2 + (encoded.length + 255) / 256 ∧
    (localFile = dir ++ 47 :: name → name ≠ [] → 47 ∉ name →
      handshakeCmd localFile = heredocLine ++ name ++ [10]) := by
  refine ⟨?_, ?_, ?_, ?_⟩
  · simp [transferFileMsgs, sendEncodedData, chunksOf, List.map_map]
  · simp [transferFileMsgsFull, transferFileMsgs, postCommands, List.append_assoc]
  · simp only [transferFileMsgs, sendEncodedData, List.length_cons, List.length_append,
      List.length_map, List.length_range, List.length_nil, totalChunks, chunkSize]
    omega
  · intro he hn hns
    rw [he]
    unfold handshakeCmd
    rw [filepathBase_strip dir name hn hns]

/-- Witness for C9 at the concrete path `dir/f.txt`: the handshake names only
the basename `f.txt`. -/
theorem c9_witness :
    handshakeCmd (strBytes "dir" ++ 47 :: strBytes "f.txt") =
      heredocLine ++ strBytes "f.txt" ++ [10] :=
  (c9_transfer_sequence (strBytes "dir" ++ 47 :: strBytes "f.txt") [] (strBytes "dir")
    (strBytes "f.txt")).2.2.2 rfl (by decide) (by decide)

end Wsh
